import Mathlib

/-!
Verification development for `rename_photos.py`, a batch photo-renaming
utility.  The Python source is shallowly embedded here: pure string and
date manipulation is translated function by function, external
collaborators (the `exifread` tag table, the `exiftool` JSON record, the
filesystem existence test `os.path.exists`, `os.path.abspath`, the file
modification time, and rename execution outcomes) are passed in as
explicit oracle parameters, and the unbounded `while True` probe loop of
`unique_target_path` is totalised with a fuel argument (`none` models
divergence, which never occurs on a finite filesystem).
-/

set_option autoImplicit false

namespace RenamePhotos

/-- A naive calendar date-time, the value produced by Python's
`datetime.strptime` on the fixed pattern used by the program. -/
structure DateTime where
  year : Nat
  month : Nat
  day : Nat
  hour : Nat
  minute : Nat
  second : Nat
deriving DecidableEq, Repr

/-- Numeric value of a list of decimal digit characters (most significant
first), as `int(...)` of the digit run captured by `strptime`. -/
def digitsVal (ds : List Char) : Nat :=
  ds.foldl (fun a c => a * 10 + (c.toNat - '0'.toNat)) 0

/-- Consume a maximal run of decimal digits from the front of `cs`,
requiring the run length to lie in `[minL, maxL]` and its value in
`[lo, hi]`; models one numeric directive of `_strptime`'s generated
regular expression together with the range validation performed by the
`datetime` constructor. -/
def takeNum (minL maxL lo hi : Nat) (cs : List Char) : Option (Nat × List Char) :=
  let ds := cs.takeWhile Char.isDigit
  let rest := cs.dropWhile Char.isDigit
  if minL ≤ ds.length ∧ ds.length ≤ maxL ∧ lo ≤ digitsVal ds ∧ digitsVal ds ≤ hi then
    some (digitsVal ds, rest)
  else
    none

/-- Consume one expected literal character (the `:` separators of the
fixed pattern `%Y:%m:%d %H:%M:%S`). -/
def expectChar (c : Char) : List Char → Option (List Char)
  | [] => none
  | c2 :: rest => if c2 = c then some rest else none

/-- Consume a nonempty run of whitespace: `_strptime` compiles the
literal space of the format to the regular expression `\s+`. -/
def skipWs1 (cs : List Char) : Option (List Char) :=
  if (cs.takeWhile Char.isWhitespace).length = 0 then none
  else some (cs.dropWhile Char.isWhitespace)

/-- Gregorian leap-year test, as used by `datetime` day validation. -/
def isLeap (y : Nat) : Bool :=
  (y % 4 == 0 && y % 100 != 0) || (y % 400 == 0)

/-- Number of days in a month, as used by `datetime` day validation. -/
def daysInMonth (y m : Nat) : Nat :=
  if m = 2 then (if isLeap y then 29 else 28)
  else if m = 4 ∨ m = 6 ∨ m = 9 ∨ m = 11 then 30
  else 31

/-- `datetime.strptime(val, "%Y:%m:%d %H:%M:%S")` over the character
list of `val`, returning `none` where Python raises `ValueError` (either
a regex mismatch or a `datetime` constructor range failure: year 0, an
impossible day of month, or a leap second).  The whole input must be
consumed (`strptime` rejects unconverted trailing data). -/
def strptimeChars (cs : List Char) : Option DateTime := do
  let (y, r1) ← takeNum 4 4 1 9999 cs
  let r2 ← expectChar ':' r1
  let (mo, r3) ← takeNum 1 2 1 12 r2
  let r4 ← expectChar ':' r3
  let (d, r5) ← takeNum 1 2 1 31 r4
  let r6 ← skipWs1 r5
  let (h, r7) ← takeNum 1 2 0 23 r6
  let r8 ← expectChar ':' r7
  let (mi, r9) ← takeNum 1 2 0 59 r8
  let r10 ← expectChar ':' r9
  let (s, r11) ← takeNum 1 2 0 59 r10
  if r11 = [] ∧ d ≤ daysInMonth y mo then
    some ⟨y, mo, d, h, mi, s⟩
  else
    none

/-- `datetime.strptime(s, "%Y:%m:%d %H:%M:%S")` on a string. -/
def strptimeFixed (s : String) : Option DateTime :=
  strptimeChars s.data

/-- Python `s.split(c)[0]`: the longest prefix of `s` before the first
occurrence of `c` (the whole string when `c` is absent). -/
def takeBefore (c : Char) (s : String) : String :=
  String.mk (s.data.takeWhile (fun x => x != c))

/-- Python `s.strip()`: remove whitespace from both ends. -/
def pyStrip (s : String) : String :=
  String.mk (((s.data.dropWhile Char.isWhitespace).reverse.dropWhile Char.isWhitespace).reverse)

/-- Line 137 of the source: `val.split("+")[0].split("-")[0].strip()`,
the timezone-suffix stripping applied to `exiftool` output. -/
def stripTZ (s : String) : String :=
  pyStrip (takeBefore '-' (takeBefore '+' s))

/-- The tag names checked by `parse_exif_date_exifread`, in source
order (line 95). -/
def exifreadTagNames : List String :=
  ["EXIF DateTimeOriginal", "EXIF DateTimeDigitized", "Image DateTime"]

/-- The tag-scanning loop of `parse_exif_date_exifread` (lines 95-103):
take the first tag present in the tag table whose value parses under the
fixed pattern; a present but unparsable tag is logged and skipped. -/
def exifreadLoop (tags : String → Option String) : List String → Option DateTime
  | [] => none
  | t :: rest =>
    match tags t with
    | some val =>
      match strptimeFixed val with
      | some dt => some dt
      | none => exifreadLoop tags rest
    | none => exifreadLoop tags rest

/-- `parse_exif_date_exifread`: the primary metadata reader.  The
`exifread` tag table is the oracle `tags`; an unavailable library or a
failing `process_file` call behaves as an empty table (both return
`None` in the source). -/
def parse_exif_date_exifread (tags : String → Option String) : Option DateTime :=
  exifreadLoop tags exifreadTagNames

/-- The field names requested from `exiftool`, in source order
(line 133). -/
def exiftoolKeys : List String :=
  ["DateTimeOriginal", "CreateDate", "DateTime"]

/-- The key-scanning loop of `parse_exif_date_exiftool` (lines
133-142): take the first key present with a truthy (nonempty) value
whose timezone-stripped form parses under the fixed pattern; an
unparsable value is logged and the loop continues with the next key. -/
def exiftoolLoop (info : String → Option String) : List String → Option DateTime
  | [] => none
  | k :: rest =>
    match info k with
    | some val =>
      if val = "" then exiftoolLoop info rest
      else
        match strptimeFixed (stripTZ val) with
        | some dt => some dt
        | none => exiftoolLoop info rest
    | none => exiftoolLoop info rest

/-- `parse_exif_date_exiftool`: the secondary (external tool) reader.
The decoded JSON record for the file is the oracle `info`; a missing
tool, a failed invocation, empty output or undecodable JSON all behave
as an empty record (each path returns `None` in the source). -/
def parse_exif_date_exiftool (info : String → Option String) : Option DateTime :=
  exiftoolLoop info exiftoolKeys

/-- Specification-side helper for stating claims about the secondary
reader: the raw value of the first requested key that is present and
truthy in the `exiftool` record, before any stripping or parsing. -/
def exiftoolRawLoop (info : String → Option String) : List String → Option String
  | [] => none
  | k :: rest =>
    match info k with
    | some val => if val = "" then exiftoolRawLoop info rest else some val
    | none => exiftoolRawLoop info rest

/-- The first present truthy value among the three requested keys. -/
def exiftoolFirstRaw (info : String → Option String) : Option String :=
  exiftoolRawLoop info exiftoolKeys

/-- `get_image_datetime` (lines 152-169): primary reader, then
secondary reader, then (only when enabled) the file modification time.
`mtime` is the oracle for `datetime.fromtimestamp(os.path.getmtime path)`,
`none` when that call raises.  A `datetime` object is always truthy in
Python, so `if dt:` is a plain `some`-test. -/
def get_image_datetime (tags info : String → Option String) (mtime : Option DateTime)
    (use_filetime : Bool) : Option DateTime :=
  match parse_exif_date_exifread tags with
  | some dt => some dt
  | none =>
    match parse_exif_date_exiftool info with
    | some dt2 => some dt2
    | none => if use_filetime then mtime else none

/-- `posixpath.join(a, b)` on character lists, for a single relative or
absolute second component: `b` wins when absolute, otherwise it is
appended with a separator unless `a` is empty or already ends in one. -/
def joinChars (a b : List Char) : List Char :=
  if b.head? = some '/' then b
  else if a = [] then b
  else if a.getLast? = some '/' then a ++ b
  else a ++ '/' :: b

/-- `os.path.join(a, b)`. -/
def pyJoin (a b : String) : String :=
  String.mk (joinChars a.data b.data)

/-- `posixpath.dirname` on character lists: keep everything up to and
including the last separator, then strip trailing separators unless the
head consists only of separators. -/
def dirnameChars (cs : List Char) : List Char :=
  let hr := cs.reverse.dropWhile (fun c => !(c == '/'))
  let core := hr.dropWhile (fun c => c == '/')
  if core = [] then hr.reverse else core.reverse

/-- `os.path.dirname(p)`. -/
def pyDirname (s : String) : String :=
  String.mk (dirnameChars s.data)

/-- `posixpath.splitext` on character lists: split at the last dot when
it lies after the last separator and the basename has at least one
non-dot character strictly before it; otherwise the extension is
empty. -/
def splitextChars (cs : List Char) : List Char × List Char :=
  let rev := cs.reverse
  let suf := rev.takeWhile (fun c => !(c == '.') && !(c == '/'))
  match rev.dropWhile (fun c => !(c == '.') && !(c == '/')) with
  | '.' :: root =>
    if (root.takeWhile (fun c => !(c == '/'))).any (fun c => !(c == '.')) then
      (root.reverse, '.' :: suf.reverse)
    else
      (cs, [])
  | _ => (cs, [])

/-- `os.path.splitext(p)`. -/
def pySplitext (s : String) : String × String :=
  (String.mk (splitextChars s.data).1, String.mk (splitextChars s.data).2)

/-- Python `s.lstrip(".")`: drop every leading dot. -/
def lstripDot (s : String) : String :=
  String.mk (s.data.dropWhile (fun c => c == '.'))

/-- The k-th candidate path probed by `unique_target_path`:
`directory/base.ext` for `k = 0` and `directory/base_k.ext` for
`k ≥ 1` (`str(counter)` is `Nat.repr`). -/
def targetName (directory base ext : String) (k : Nat) : String :=
  if k = 0 then pyJoin directory (base ++ "." ++ ext)
  else pyJoin directory (base ++ "_" ++ Nat.repr k ++ "." ++ ext)

/-- The `while True` counter loop of `unique_target_path` (lines
177-182), totalised with fuel: probe `directory/base_counter.ext`,
return it when it does not exist, else increment.  `fs` is the oracle
for `os.path.exists`. -/
def uniqueLoop (fs : String → Bool) (directory base ext : String) : Nat → Nat → Option String
  | 0, _ => none
  | fuel + 1, counter =>
    let candidate := pyJoin directory (base ++ "_" ++ Nat.repr counter ++ "." ++ ext)
    if fs candidate then uniqueLoop fs directory base ext fuel (counter + 1)
    else some candidate

/-- `unique_target_path` (lines 172-182): return `directory/base.ext`
when free, else the first free suffixed candidate starting from
counter 1. -/
def unique_target_path (fs : String → Bool) (directory base ext : String)
    (fuel : Nat) : Option String :=
  let candidate := pyJoin directory (base ++ "." ++ ext)
  if fs candidate then uniqueLoop fs directory base ext fuel 1
  else some candidate

/-- Outcome of the per-candidate body of the planning loop in `main`
(lines 209-227): a plan entry, a recorded failure, or a logged skip. -/
inductive PlanAction where
  | entry (e : String × String)
  | failure (e : String × String)
  | skip
deriving DecidableEq, Repr

/-- One iteration of the planning loop of `main` (lines 209-227) for
source path `src`.  `resolve` is the oracle for the whole `try` body up
to date resolution: `.error e` models an unexpected exception with
description `str(e)` caught by the `except` clause, `.ok none` a file
with no resolvable date, and `.ok (some dt)` a resolved capture time.
`fmt` is the oracle for `dt.strftime(args.format)` and `abspath` for
`os.path.abspath`. -/
def processFile (fs : String → Bool) (abspath : String → String) (fmt : DateTime → String)
    (resolve : String → Except String (Option DateTime)) (fuel : Nat)
    (src : String) : Option PlanAction :=
  match resolve src with
  | .error e => some (.failure (src, e))
  | .ok none => some (.failure (src, "no-date"))
  | .ok (some dt) =>
    let base := fmt dt
    let directory := pyDirname src
    let ext := lstripDot (pySplitext src).2
    match unique_target_path fs directory base ext fuel with
    | none => none
    | some target =>
      if abspath src = abspath target then some .skip
      else some (.entry (src, target))

/-- The full planning loop of `main`: fold `processFile` over the
candidate list, accumulating the `mapping` and `failures` lists in
order.  The filesystem oracle is constant throughout: planning performs
no filesystem mutation. -/
def buildPlan (fs : String → Bool) (abspath : String → String) (fmt : DateTime → String)
    (resolve : String → Except String (Option DateTime)) (fuel : Nat) :
    List String → Option (List (String × String) × List (String × String))
  | [] => some ([], [])
  | src :: rest =>
    match processFile fs abspath fmt resolve fuel src with
    | none => none
    | some act =>
      match buildPlan fs abspath fmt resolve fuel rest with
      | none => none
      | some (m, f) =>
        match act with
        | .entry e => some (e :: m, f)
        | .failure fr => some (m, fr :: f)
        | .skip => some (m, f)

/-- An observable action of `main` and `rename_file`: a `print` call, a
directory creation, or a file move.  `logging` output is not modelled. -/
inductive Effect where
  | print (s : String)
  | makedirs (d : String)
  | move (src dst : String)
deriving DecidableEq, Repr

/-- The execution loop of `main` (lines 242-247) over the plan, calling
`rename_file(s, t, simulate=False)` (lines 185-191) per entry.
`execErr` is the oracle for a per-entry execution exception (`some e`
models `makedirs`/`shutil.move` raising with description `str(e)`, in
which case the move is not recorded and the failure is appended). -/
def executeRenames (execErr : String → String → Option String) :
    List (String × String) → List Effect × List (String × String)
  | [] => ([], [])
  | (s, t) :: rest =>
    let (effs, fails) := executeRenames execErr rest
    match execErr s t with
    | none =>
      (Effect.makedirs (pyDirname t) :: Effect.move s t ::
        Effect.print ("RENAMED: " ++ s ++ " -> " ++ t) :: effs, fails)
    | some e =>
      (Effect.makedirs (pyDirname t) :: effs, (s, e) :: fails)

/-- `main` (lines 194-256) from the point where the candidate list is
known, returning the trace of observable effects and the completion
code: 0 when no candidates, 0 when nothing is in the plan, the plan
summary then 0 in simulation mode, and otherwise the executed effects
with code 2 exactly when the accumulated failure list is nonempty. -/
def mainRun (fs : String → Bool) (abspath : String → String) (fmt : DateTime → String)
    (resolve : String → Except String (Option DateTime)) (fuel : Nat)
    (simulate : Bool) (execErr : String → String → Option String)
    (files : List String) : Option (List Effect × Nat) :=
  if files = [] then some ([], 0)
  else
    match buildPlan fs abspath fmt resolve fuel files with
    | none => none
    | some (m, f) =>
      if m = [] then some ([], 0)
      else
        let summary := Effect.print "Planned renames:" ::
          m.map (fun pr => Effect.print (pr.1 ++ " -> " ++ pr.2))
        if simulate then
          some (summary ++ [Effect.print "Simulation mode; no files renamed."], 0)
        else
          let (effs, efails) := executeRenames execErr m
          let allFails := f ++ efails
          some (summary ++ effs, if allFails = [] then 0 else 2)

/-- Two-digit zero padding, as `strftime` `%m`, `%d`, `%H`, `%M`, `%S`. -/
def pad2 (n : Nat) : String :=
  if n < 10 then "0" ++ Nat.repr n else Nat.repr n

/-- Four-digit zero padding for the year field. -/
def pad4 (n : Nat) : String :=
  if n < 10 then "000" ++ Nat.repr n
  else if n < 100 then "00" ++ Nat.repr n
  else if n < 1000 then "0" ++ Nat.repr n
  else Nat.repr n

/-- The program's default filename format `%Y-%m-%d_%H-%M-%S`
(line 54), used to instantiate the formatter oracle on concrete runs. -/
def defaultFormat (dt : DateTime) : String :=
  pad4 dt.year ++ "-" ++ pad2 dt.month ++ "-" ++ pad2 dt.day ++ "_" ++
    pad2 dt.hour ++ "-" ++ pad2 dt.minute ++ "-" ++ pad2 dt.second

/-! ### Lemmas about the collision-probing namer -/

theorem uniqueLoop_spec (fs : String → Bool) (d b e : String) :
    ∀ (n fuel counter : Nat), n < fuel → 1 ≤ counter →
    fs (targetName d b e (counter + n)) = false →
    (∀ j, counter ≤ j → j < counter + n → fs (targetName d b e j) = true) →
    uniqueLoop fs d b e fuel counter = some (targetName d b e (counter + n)) := by
  intro n
  induction n with
  | zero =>
    intro fuel counter hfu hc h0 _
    match fuel, hfu with
    | fuel + 1, _ =>
      have hc0 : counter ≠ 0 := by omega
      have hcand : pyJoin d (b ++ "_" ++ Nat.repr counter ++ "." ++ e) =
          targetName d b e counter := by simp [targetName, hc0]
      rw [Nat.add_zero] at h0
      simp only [uniqueLoop, hcand, h0]
      simp
  | succ n ih =>
    intro fuel counter hfu hc hlast hall
    match fuel, hfu with
    | fuel + 1, _ =>
      have hc0 : counter ≠ 0 := by omega
      have hcur : fs (targetName d b e counter) = true :=
        hall counter (Nat.le_refl counter) (by omega)
      have hcand : pyJoin d (b ++ "_" ++ Nat.repr counter ++ "." ++ e) =
          targetName d b e counter := by simp [targetName, hc0]
      simp only [uniqueLoop, hcand, hcur]
      have hstep := ih fuel (counter + 1) (by omega) (by omega)
        (by rw [show counter + 1 + n = counter + (n + 1) from by omega]; exact hlast)
        (fun j hj1 hj2 => hall j (by omega) (by omega))
      rw [show counter + (n + 1) = counter + 1 + n from by omega]
      simpa using hstep

theorem unique_target_path_spec (fs : String → Bool) (d b e : String) (k fuel : Nat)
    (hfree : fs (targetName d b e k) = false)
    (htaken : ∀ j, j < k → fs (targetName d b e j) = true)
    (hfuel : k ≤ fuel) :
    unique_target_path fs d b e fuel = some (targetName d b e k) := by
  have hcand0 : pyJoin d (b ++ "." ++ e) = targetName d b e 0 := by
    simp [targetName]
  match k, hfree, htaken, hfuel with
  | 0, hfree, _, _ =>
    simp only [unique_target_path, hcand0, hfree]
    simp
  | k + 1, hfree, htaken, hfuel =>
    have h0 : fs (targetName d b e 0) = true := htaken 0 (by omega)
    simp only [unique_target_path, hcand0, h0]
    have := uniqueLoop_spec fs d b e k fuel 1 (by omega) (Nat.le_refl 1)
      (by rw [show 1 + k = k + 1 from by omega]; exact hfree)
      (fun j hj1 hj2 => htaken j (by omega))
    rw [show k + 1 = 1 + k from by omega]
    simpa using this

/-- Claim C5: for every filesystem state, directory, base name and
extension, the namer returns `directory/base.ext` when that path is
free, and otherwise `directory/base_k.ext` for the smallest positive
`k` whose path is free — it never skips a free slot and never returns
an existing path.  The fuel bound `k ≤ fuel` totalises the source's
unbounded probe loop. -/
theorem c5_namer_smallest_free (fs : String → Bool) (d b e : String) (k fuel : Nat)
    (hfree : fs (targetName d b e k) = false)
    (htaken : ∀ j, j < k → fs (targetName d b e j) = true)
    (hfuel : k ≤ fuel) :
    unique_target_path fs d b e fuel = some (targetName d b e k) ∧
    fs (targetName d b e k) = false :=
  ⟨unique_target_path_spec fs d b e k fuel hfree htaken hfuel, hfree⟩

/-- Witness for C5 at a concrete filesystem: `d/b.e` exists, so the
namer returns the first suffixed candidate `d/b_1.e`, which is free. -/
theorem c5_namer_smallest_free_witness :
    unique_target_path (fun s => s == "d/b.e") "d" "b" "e" 2 = some (targetName "d" "b" "e" 1) ∧
    (fun s : String => s == "d/b.e") (targetName "d" "b" "e" 1) = false :=
  c5_namer_smallest_free (fun s => s == "d/b.e") "d" "b" "e" 1 2 (by decide)
    (fun j hj => by have hj0 : j = 0 := by omega
                    subst hj0; decide) (by omega)

/-! ### The date resolver priority chain -/

/-- Claim C3: when the primary reader (the `exifread` tag scan over
original capture time, digitized time and generic image time, in that
order) yields a parsed value, the resolver returns exactly that value;
the secondary reader, the modification time and the fallback flag are
universally quantified, so they are never consulted. -/
theorem c3_primary_short_circuit (tags info : String → Option String)
    (mtime : Option DateTime) (use_filetime : Bool) (d : DateTime)
    (h : parse_exif_date_exifread tags = some d) :
    get_image_datetime tags info mtime use_filetime = some d := by
  simp [get_image_datetime, h]

/-- A tag table holding only an original-capture-time tag. -/
def tagsC3 : String → Option String :=
  fun t => if t == "EXIF DateTimeOriginal" then some "2023:05:01 10:20:30" else none

/-- A secondary-reader record that would resolve to a different date. -/
def infoC3 : String → Option String :=
  fun k => if k == "DateTimeOriginal" then some "2020:01:01 00:00:00" else none

/-- Witness for C3: with a conflicting secondary record and a
conflicting modification time available and the fallback enabled, the
resolver still returns the primary reader's parsed value. -/
theorem c3_primary_short_circuit_witness :
    parse_exif_date_exifread tagsC3 = some ⟨2023, 5, 1, 10, 20, 30⟩ ∧
    get_image_datetime tagsC3 infoC3 (some ⟨1999, 1, 1, 0, 0, 0⟩) true =
      some ⟨2023, 5, 1, 10, 20, 30⟩ :=
  ⟨rfl, c3_primary_short_circuit tagsC3 infoC3 (some ⟨1999, 1, 1, 0, 0, 0⟩) true _ rfl⟩

/-! ### The intra-batch collision bug (C2) -/

/-- A filesystem on which exactly the two source photographs exist. -/
def fsC2 : String → Bool :=
  fun s => s == "d/a.jpg" || s == "d/b.jpg"

/-- Both photographs carry the same capture second (a burst shot). -/
def resolveC2 : String → Except String (Option DateTime) :=
  fun _ => .ok (some ⟨2023, 5, 1, 10, 20, 30⟩)

/-- Claim C2, evaluated at the failing input: two candidates resolving
to the identical base name in the same directory are BOTH planned onto
`d/2023-05-01_10-20-30.jpg`, because `unique_target_path` probes the
unchanged filesystem rather than earlier plan entries; the second
planned entry is not the claimed `d/2023-05-01_10-20-30_1.jpg`, and at
execution time the second `shutil.move` would overwrite the first
file's data. -/
theorem c2_collision_overwrite_bug :
    buildPlan fsC2 id defaultFormat resolveC2 5 ["d/a.jpg", "d/b.jpg"] =
      some ([("d/a.jpg", "d/2023-05-01_10-20-30.jpg"),
             ("d/b.jpg", "d/2023-05-01_10-20-30.jpg")], []) ∧
    ("d/2023-05-01_10-20-30.jpg" : String) ≠ "d/2023-05-01_10-20-30_1.jpg" :=
  ⟨rfl, by decide⟩

/-! ### Inversion lemmas for the planning loop -/

theorem processFile_entry_src (fs : String → Bool) (abspath : String → String)
    (fmt : DateTime → String) (resolve : String → Except String (Option DateTime))
    (fuel : Nat) (src : String) (e : String × String)
    (h : processFile fs abspath fmt resolve fuel src = some (PlanAction.entry e)) :
    e.1 = src := by
  unfold processFile at h
  cases hres : resolve src with
  | error er => simp [hres] at h
  | ok odt =>
    cases odt with
    | none => simp [hres] at h
    | some dt =>
      simp only [hres] at h
      cases hu : unique_target_path fs (pyDirname src) (fmt dt)
          (lstripDot (pySplitext src).2) fuel with
      | none => simp [hu] at h
      | some target =>
        simp only [hu] at h
        by_cases habs : abspath src = abspath target
        · simp [habs] at h
        · simp only [habs, if_false] at h
          have := Option.some.inj h
          cases this
          rfl

theorem processFile_failure_src (fs : String → Bool) (abspath : String → String)
    (fmt : DateTime → String) (resolve : String → Except String (Option DateTime))
    (fuel : Nat) (src : String) (fr : String × String)
    (h : processFile fs abspath fmt resolve fuel src = some (PlanAction.failure fr)) :
    fr.1 = src := by
  unfold processFile at h
  cases hres : resolve src with
  | error er =>
    simp only [hres] at h
    cases Option.some.inj h
    rfl
  | ok odt =>
    cases odt with
    | none =>
      simp only [hres] at h
      cases Option.some.inj h
      rfl
    | some dt =>
      simp only [hres] at h
      cases hu : unique_target_path fs (pyDirname src) (fmt dt)
          (lstripDot (pySplitext src).2) fuel with
      | none => simp [hu] at h
      | some target =>
        simp only [hu] at h
        by_cases habs : abspath src = abspath target
        · simp [habs] at h
        · simp [habs] at h

/-- Every plan entry arises from `processFile` on its own source path. -/
theorem buildPlan_entry_inv (fs : String → Bool) (abspath : String → String)
    (fmt : DateTime → String) (resolve : String → Except String (Option DateTime))
    (fuel : Nat) :
    ∀ (cs : List String) (m f : List (String × String)),
    buildPlan fs abspath fmt resolve fuel cs = some (m, f) →
    ∀ pr ∈ m, processFile fs abspath fmt resolve fuel pr.1 = some (PlanAction.entry pr) := by
  intro cs
  induction cs with
  | nil =>
    intro m f h pr hpr
    simp only [buildPlan] at h
    cases Option.some.inj h
    simp at hpr
  | cons x rest ih =>
    intro m f h pr hpr
    simp only [buildPlan] at h
    cases hx : processFile fs abspath fmt resolve fuel x with
    | none => rw [hx] at h; simp at h
    | some act =>
      rw [hx] at h
      cases hr : buildPlan fs abspath fmt resolve fuel rest with
      | none => rw [hr] at h; simp at h
      | some p =>
        obtain ⟨m2, f2⟩ := p
        rw [hr] at h
        cases act with
        | entry e =>
          simp only at h
          cases Option.some.inj h
          rcases List.mem_cons.mp hpr with heq | hmem
          · subst heq
            have hsrc := processFile_entry_src fs abspath fmt resolve fuel x pr hx
            rw [hsrc]
            exact hx
          · exact ih _ _ hr pr hmem
        | failure fr =>
          simp only at h
          cases Option.some.inj h
          exact ih _ _ hr pr hpr
        | skip =>
          simp only at h
          cases Option.some.inj h
          exact ih _ _ hr pr hpr

/-- Every recorded failure arises from `processFile` on its own source
path. -/
theorem buildPlan_failure_inv (fs : String → Bool) (abspath : String → String)
    (fmt : DateTime → String) (resolve : String → Except String (Option DateTime))
    (fuel : Nat) :
    ∀ (cs : List String) (m f : List (String × String)),
    buildPlan fs abspath fmt resolve fuel cs = some (m, f) →
    ∀ pr ∈ f, processFile fs abspath fmt resolve fuel pr.1 = some (PlanAction.failure pr) := by
  intro cs
  induction cs with
  | nil =>
    intro m f h pr hpr
    simp only [buildPlan] at h
    cases Option.some.inj h
    simp at hpr
  | cons x rest ih =>
    intro m f h pr hpr
    simp only [buildPlan] at h
    cases hx : processFile fs abspath fmt resolve fuel x with
    | none => rw [hx] at h; simp at h
    | some act =>
      rw [hx] at h
      cases hr : buildPlan fs abspath fmt resolve fuel rest with
      | none => rw [hr] at h; simp at h
      | some p =>
        obtain ⟨m2, f2⟩ := p
        rw [hr] at h
        cases act with
        | entry e =>
          simp only at h
          cases Option.some.inj h
          exact ih _ _ hr pr hpr
        | failure fr =>
          simp only at h
          cases Option.some.inj h
          rcases List.mem_cons.mp hpr with heq | hmem
          · subst heq
            have hsrc := processFile_failure_src fs abspath fmt resolve fuel x pr hx
            rw [hsrc]
            exact hx
          · exact ih _ _ hr pr hmem
        | skip =>
          simp only at h
          cases Option.some.inj h
          exact ih _ _ hr pr hpr

/-- A run in which the planning body reaches the no-op comparison and
finds source and target identical produces a logged skip. -/
theorem processFile_skip (fs : String → Bool) (abspath : String → String)
    (fmt : DateTime → String) (resolve : String → Except String (Option DateTime))
    (fuel : Nat) (src target : String) (dt : DateTime)
    (hres : resolve src = Except.ok (some dt))
    (hu : unique_target_path fs (pyDirname src) (fmt dt) (lstripDot (pySplitext src).2) fuel =
      some target)
    (habs : abspath src = abspath target) :
    processFile fs abspath fmt resolve fuel src = some PlanAction.skip := by
  simp [processFile, hres, hu, habs]

/-- A skipped source path appears in neither output list of the
planner, whatever the surrounding candidates. -/
theorem buildPlan_skip_not_listed (fs : String → Bool) (abspath : String → String)
    (fmt : DateTime → String) (resolve : String → Except String (Option DateTime))
    (fuel : Nat) (src : String)
    (hskip : processFile fs abspath fmt resolve fuel src = some PlanAction.skip)
    (cs : List String) (m f : List (String × String))
    (h : buildPlan fs abspath fmt resolve fuel cs = some (m, f)) :
    (∀ pr ∈ m, pr.1 ≠ src) ∧ (∀ pr ∈ f, pr.1 ≠ src) := by
  constructor
  · intro pr hpr heq
    have hinv := buildPlan_entry_inv fs abspath fmt resolve fuel cs m f h pr hpr
    rw [heq, hskip] at hinv
    simp at hinv
  · intro pr hpr heq
    have hinv := buildPlan_failure_inv fs abspath fmt resolve fuel cs m f h pr hpr
    rw [heq, hskip] at hinv
    simp at hinv

/-- Claim C6: a candidate whose resolved target path equals its own
source path (under `os.path.abspath` on both sides, exactly as the
source compares them) is excluded from both the rename plan and the
failure list of any run containing it. -/
theorem c6_noop_excluded (fs : String → Bool) (abspath : String → String)
    (fmt : DateTime → String) (resolve : String → Except String (Option DateTime))
    (fuel : Nat) (c1 c2 : List String) (src target : String) (dt : DateTime)
    (m f : List (String × String))
    (hres : resolve src = Except.ok (some dt))
    (hu : unique_target_path fs (pyDirname src) (fmt dt) (lstripDot (pySplitext src).2) fuel =
      some target)
    (habs : abspath src = abspath target)
    (h : buildPlan fs abspath fmt resolve fuel (c1 ++ src :: c2) = some (m, f)) :
    (∀ pr ∈ m, pr.1 ≠ src) ∧ (∀ pr ∈ f, pr.1 ≠ src) :=
  buildPlan_skip_not_listed fs abspath fmt resolve fuel src
    (processFile_skip fs abspath fmt resolve fuel src target dt hres hu habs)
    (c1 ++ src :: c2) m f h

/-- The capture time used on the concrete runs below. -/
def dtC : DateTime := ⟨2023, 5, 1, 10, 20, 30⟩

/-- Resolution oracle for the C6 witness run: the canonically named
file resolves, the other candidate raises. -/
def resolveC6 : String → Except String (Option DateTime) :=
  fun s => if s == "d/2023-05-01_10-20-30.jpg" then .ok (some dtC) else .error "boom"

/-- Witness for C6: in a run whose plan is empty and whose failure list
holds only the other candidate, the skipped file is indeed absent (the
one failure record carries a different source path). -/
theorem c6_noop_excluded_witness :
    (("d/x.jpg", "boom") : String × String).1 ≠ "d/2023-05-01_10-20-30.jpg" := by
  have h := c6_noop_excluded (fun _ => false) id defaultFormat resolveC6 5 [] ["d/x.jpg"]
    "d/2023-05-01_10-20-30.jpg" "d/2023-05-01_10-20-30.jpg" dtC [] [("d/x.jpg", "boom")]
    rfl rfl rfl rfl
  exact h.2 ("d/x.jpg", "boom") (by simp)

/-- Claim C9: an unexpected exception while handling one candidate is
caught and recorded as a failure pairing that source with the
exception's description, and the plan and failures produced for the
candidates before and after it are exactly those of the unperturbed
runs on those sublists — no per-file error terminates processing. -/
theorem c9_exception_isolated (fs : String → Bool) (abspath : String → String)
    (fmt : DateTime → String) (resolve : String → Except String (Option DateTime))
    (fuel : Nat) (c2 : List String) (src e : String) (m2 f2 : List (String × String))
    (herr : resolve src = Except.error e)
    (h2 : buildPlan fs abspath fmt resolve fuel c2 = some (m2, f2)) :
    ∀ (c1 : List String) (m1 f1 : List (String × String)),
    buildPlan fs abspath fmt resolve fuel c1 = some (m1, f1) →
    buildPlan fs abspath fmt resolve fuel (c1 ++ src :: c2) =
      some (m1 ++ m2, f1 ++ (src, e) :: f2) := by
  have hpf : processFile fs abspath fmt resolve fuel src =
      some (PlanAction.failure (src, e)) := by
    simp [processFile, herr]
  intro c1
  induction c1 with
  | nil =>
    intro m1 f1 h1
    simp only [buildPlan] at h1
    cases Option.some.inj h1
    simp [buildPlan, hpf, h2]
  | cons x xs ih =>
    intro m1 f1 h1
    simp only [buildPlan] at h1
    cases hx : processFile fs abspath fmt resolve fuel x with
    | none => rw [hx] at h1; simp at h1
    | some act =>
      rw [hx] at h1
      cases hr : buildPlan fs abspath fmt resolve fuel xs with
      | none => rw [hr] at h1; simp at h1
      | some p =>
        obtain ⟨mm, ff⟩ := p
        rw [hr] at h1
        have hstep := ih mm ff hr
        cases act with
        | entry e2 =>
          simp only at h1
          cases Option.some.inj h1
          simp [buildPlan, hx, hstep]
        | failure fr =>
          simp only at h1
          cases Option.some.inj h1
          simp [buildPlan, hx, hstep]
        | skip =>
          simp only at h1
          cases Option.some.inj h1
          simp [buildPlan, hx, hstep]

/-- Resolution oracle for the C9 witness run: one resolvable file, one
exception, one file without a date. -/
def resolveC9 : String → Except String (Option DateTime) :=
  fun s =>
    if s == "d/a.jpg" then .ok (some dtC)
    else if s == "d/x.jpg" then .error "boom"
    else .ok none

/-- Witness for C9: with `d/a.jpg` before it and `d/b.jpg` after it,
the exception on `d/x.jpg` is recorded in place and both neighbours are
still processed. -/
theorem c9_exception_isolated_witness :
    buildPlan (fun _ => false) id defaultFormat resolveC9 5 (["d/a.jpg"] ++ "d/x.jpg" :: ["d/b.jpg"]) =
      some ([("d/a.jpg", "d/2023-05-01_10-20-30.jpg")] ++ [],
        [] ++ ("d/x.jpg", "boom") :: [("d/b.jpg", "no-date")]) :=
  c9_exception_isolated (fun _ => false) id defaultFormat resolveC9 5 ["d/b.jpg"] "d/x.jpg"
    "boom" [] [("d/b.jpg", "no-date")] rfl rfl ["d/a.jpg"]
    [("d/a.jpg", "d/2023-05-01_10-20-30.jpg")] [] rfl

/-- Claim C10: a candidate that already bears its canonical name is
planned for a rename onto the `_1`-suffixed target rather than being
skipped: the source file itself occupies the probed base path, so the
collision probe suffixes the name, and since the suffixed target is
free while the source exists, the no-op comparison of the two absolute
paths cannot succeed (given that distinct paths have distinct absolute
forms). -/
theorem c10_canonical_renamed (fs : String → Bool) (abspath : String → String)
    (fmt : DateTime → String) (resolve : String → Except String (Option DateTime))
    (fuel : Nat) (dir base ext src : String) (dt : DateTime)
    (hsrc : src = pyJoin dir (base ++ "." ++ ext))
    (hres : resolve src = Except.ok (some dt))
    (hfmt : fmt dt = base)
    (hdir : pyDirname src = dir)
    (hext : lstripDot (pySplitext src).2 = ext)
    (hex : fs src = true)
    (hfree : fs (targetName dir base ext 1) = false)
    (hfuel : 1 ≤ fuel)
    (hinj : ∀ a b, abspath a = abspath b → a = b) :
    buildPlan fs abspath fmt resolve fuel [src] =
      some ([(src, targetName dir base ext 1)], []) := by
  have htn0 : targetName dir base ext 0 = src := by
    rw [hsrc]; simp [targetName]
  have htaken : ∀ j, j < 1 → fs (targetName dir base ext j) = true := by
    intro j hj
    have hj0 : j = 0 := by omega
    subst hj0
    rw [htn0]
    exact hex
  have huniq := unique_target_path_spec fs dir base ext 1 fuel hfree htaken hfuel
  have hne : abspath src ≠ abspath (targetName dir base ext 1) := by
    intro habs
    have heq := hinj _ _ habs
    rw [heq] at hex
    rw [hex] at hfree
    simp at hfree
  have hpf : processFile fs abspath fmt resolve fuel src =
      some (PlanAction.entry (src, targetName dir base ext 1)) := by
    simp [processFile, hres, hfmt, hdir, hext, huniq, hne]
  simp [buildPlan, hpf]

/-- Every candidate resolves to the same capture time. -/
def resolveAll : String → Except String (Option DateTime) :=
  fun _ => .ok (some dtC)

/-- Witness for C10: a file already named `d/2023-05-01_10-20-30.jpg`
on a filesystem where it (and nothing else) exists is planned for a
rename onto the suffixed target, not skipped. -/
theorem c10_canonical_renamed_witness :
    buildPlan (fun s => s == "d/2023-05-01_10-20-30.jpg") id defaultFormat resolveAll 5
      ["d/2023-05-01_10-20-30.jpg"] =
      some ([("d/2023-05-01_10-20-30.jpg", targetName "d" "2023-05-01_10-20-30" "jpg" 1)], []) :=
  c10_canonical_renamed (fun s => s == "d/2023-05-01_10-20-30.jpg") id defaultFormat resolveAll
    5 "d" "2023-05-01_10-20-30" "jpg" "d/2023-05-01_10-20-30.jpg" dtC rfl rfl rfl rfl rfl rfl
    rfl (by omega) (fun a b h => h)

/-! ### Completion codes (C1) -/

/-- Every candidate resolves to no date at all. -/
def resolveNoDate : String → Except String (Option DateTime) :=
  fun _ => .ok none

/-- Claim C1, refuted at a concrete run: a single candidate fails with
"no-date", simulation mode is off, yet because the plan is empty `main`
takes the early `Nothing to rename` return and completes with code 0 —
not a distinct non-zero code — so the claimed behaviour does not hold
regardless of whether any rename was planned. -/
theorem c1_exit_counterexample :
    buildPlan (fun _ => false) id defaultFormat resolveNoDate 5 ["d/a.jpg"] =
      some ([], [("d/a.jpg", "no-date")]) ∧
    mainRun (fun _ => false) id defaultFormat resolveNoDate 5 false (fun _ _ => none)
      ["d/a.jpg"] = some ([], 0) :=
  ⟨rfl, rfl⟩

/-- Claim C1 as amended: the run completes with the distinct non-zero
code 2 exactly when the failure list (planning failures plus execution
failures) is nonempty AND at least one rename was planned AND
simulation mode is off; with an empty plan or in simulation mode the
completion code is 0 even when failures occurred. -/
theorem c1_exit_code_amended (fs : String → Bool) (abspath : String → String)
    (fmt : DateTime → String) (resolve : String → Except String (Option DateTime))
    (fuel : Nat) (simulate : Bool) (execErr : String → String → Option String)
    (files : List String) (m f : List (String × String))
    (h : buildPlan fs abspath fmt resolve fuel files = some (m, f)) :
    ∃ E, mainRun fs abspath fmt resolve fuel simulate execErr files =
      some (E, if m = [] ∨ simulate = true then 0
        else if f ++ (executeRenames execErr m).2 = [] then 0 else 2) := by
  by_cases hfiles : files = []
  · subst hfiles
    simp only [buildPlan] at h
    cases Option.some.inj h
    exact ⟨[], by simp [mainRun]⟩
  · by_cases hm : m = []
    · subst hm
      exact ⟨[], by simp [mainRun, hfiles, h]⟩
    · rcases hER : executeRenames execErr m with ⟨effs, efails⟩
      by_cases hsim : simulate
      · subst hsim
        refine ⟨Effect.print "Planned renames:" ::
          m.map (fun pr => Effect.print (pr.1 ++ " -> " ++ pr.2)) ++
          [Effect.print "Simulation mode; no files renamed."], ?_⟩
        simp [mainRun, hfiles, h, hm]
      · have hsim2 : simulate = false := by
          cases simulate
          · rfl
          · exact absurd rfl hsim
        subst hsim2
        refine ⟨Effect.print "Planned renames:" ::
          m.map (fun pr => Effect.print (pr.1 ++ " -> " ++ pr.2)) ++ effs, ?_⟩
        simp [mainRun, hfiles, h, hm, hER]

/-- Resolution oracle for the C1 witness run: one resolvable file, one
file without a date. -/
def resolveC1w : String → Except String (Option DateTime) :=
  fun s => if s == "d/a.jpg" then .ok (some dtC) else .ok none

/-- Witness for C1 as amended: a run with one planned rename, one
"no-date" failure and simulation off completes with code 2. -/
theorem c1_exit_code_amended_witness :
    ∃ E, mainRun (fun _ => false) id defaultFormat resolveC1w 5 false (fun _ _ => none)
      ["d/a.jpg", "d/b.jpg"] = some (E, 2) := by
  have h := c1_exit_code_amended (fun _ => false) id defaultFormat resolveC1w 5 false
    (fun _ _ => none) ["d/a.jpg", "d/b.jpg"]
    [("d/a.jpg", "d/2023-05-01_10-20-30.jpg")] [("d/b.jpg", "no-date")] rfl
  simpa using h

/-! ### Simulation mode (C8) -/

/-- Claim C8, refuted on its "distinct simulation prefix" conjunct: in
a simulation run the effect trace consists of the plan summary and a
trailing notice line; the planned move is printed as a bare
`src -> target` line, and no line carries the program's own per-move
simulation prefix (`SIMULATE: src -> dst`, which `rename_file` would
print but which `main` never reaches in simulation mode). -/
theorem c8_sim_counterexample :
    mainRun (fun _ => false) id defaultFormat resolveAll 5 true (fun _ _ => none) ["d/a.jpg"] =
      some ([Effect.print "Planned renames:",
             Effect.print "d/a.jpg -> d/2023-05-01_10-20-30.jpg",
             Effect.print "Simulation mode; no files renamed."], 0) ∧
    Effect.print ("SIMULATE: " ++ "d/a.jpg" ++ " -> " ++ "d/2023-05-01_10-20-30.jpg") ∉
      ([Effect.print "Planned renames:",
        Effect.print "d/a.jpg -> d/2023-05-01_10-20-30.jpg",
        Effect.print "Simulation mode; no files renamed."] : List Effect) :=
  ⟨rfl, by decide⟩

/-- Claim C8 as amended: a simulation run performs zero filesystem
mutations (its effect trace contains no directory creation and no file
move, so every file's location and modification time are untouched),
prints every planned move in the plan summary, and completes with
code 0; the per-move simulation prefix is not emitted. -/
theorem c8_sim_no_mutation_amended (fs : String → Bool) (abspath : String → String)
    (fmt : DateTime → String) (resolve : String → Except String (Option DateTime))
    (fuel : Nat) (execErr : String → String → Option String) (files : List String)
    (m f : List (String × String)) (E : List Effect) (c : Nat)
    (hplan : buildPlan fs abspath fmt resolve fuel files = some (m, f))
    (hrun : mainRun fs abspath fmt resolve fuel true execErr files = some (E, c)) :
    (∀ eff ∈ E, (∀ dd, eff ≠ Effect.makedirs dd) ∧ ∀ s t, eff ≠ Effect.move s t) ∧
    (∀ pr ∈ m, Effect.print (pr.1 ++ " -> " ++ pr.2) ∈ E) ∧ c = 0 := by
  by_cases hfiles : files = []
  · subst hfiles
    simp only [buildPlan] at hplan
    cases Option.some.inj hplan
    simp only [mainRun, if_pos rfl] at hrun
    cases Option.some.inj hrun
    refine ⟨?_, ?_, rfl⟩
    · intro eff heff
      simp at heff
    · intro pr hpr
      simp at hpr
  · simp only [mainRun, hfiles, if_false, hplan] at hrun
    by_cases hm : m = []
    · subst hm
      simp only [if_pos rfl] at hrun
      cases Option.some.inj hrun
      refine ⟨?_, ?_, rfl⟩
      · intro eff heff
        simp at heff
      · intro pr hpr
        simp at hpr
    · simp only [hm, if_false, if_pos rfl] at hrun
      cases Option.some.inj hrun
      refine ⟨?_, ?_, rfl⟩
      · intro eff heff
        rcases List.mem_cons.mp heff with heq | hmem
        · subst heq
          exact ⟨fun dd => by simp, fun s t => by simp⟩
        · rcases List.mem_append.mp hmem with hmap | hlast
          · rcases List.mem_map.mp hmap with ⟨pr, _, hpr⟩
            subst hpr
            exact ⟨fun dd => by simp, fun s t => by simp⟩
          · rcases List.mem_singleton.mp hlast with rfl
            exact ⟨fun dd => by simp, fun s t => by simp⟩
      · intro pr hpr
        exact List.mem_cons_of_mem _
          (List.mem_append_left _ (List.mem_map.mpr ⟨pr, hpr, rfl⟩))

/-- Witness for C8 as amended: on the concrete simulation run above,
the planned move line is in the printed trace. -/
theorem c8_sim_no_mutation_amended_witness :
    Effect.print ("d/a.jpg" ++ " -> " ++ "d/2023-05-01_10-20-30.jpg") ∈
      ([Effect.print "Planned renames:",
        Effect.print "d/a.jpg -> d/2023-05-01_10-20-30.jpg",
        Effect.print "Simulation mode; no files renamed."] : List Effect) := by
  have h := c8_sim_no_mutation_amended (fun _ => false) id defaultFormat resolveAll 5
    (fun _ _ => none) ["d/a.jpg"]
    [("d/a.jpg", "d/2023-05-01_10-20-30.jpg")] []
    [Effect.print "Planned renames:",
     Effect.print "d/a.jpg -> d/2023-05-01_10-20-30.jpg",
     Effect.print "Simulation mode; no files renamed."] 0 rfl rfl
  exact h.2.1 ("d/a.jpg", "d/2023-05-01_10-20-30.jpg") (by simp)

/-! ### Structure of strings accepted by the fixed-pattern parser -/

theorem takeWhile_all {p : Char → Bool} :
    ∀ (l : List Char), (∀ c ∈ l, p c = true) → l.takeWhile p = l := by
  intro l h
  induction l with
  | nil => rfl
  | cons a l ih =>
    rw [List.takeWhile_cons_of_pos (h a (List.mem_cons_self a l))]
    rw [ih (fun c hc => h c (List.mem_cons_of_mem a hc))]

theorem takeWhile_append_all {p : Char → Bool} (l m : List Char)
    (h : ∀ c ∈ l, p c = true) : (l ++ m).takeWhile p = l ++ m.takeWhile p := by
  induction l with
  | nil => simp
  | cons a l ih =>
    simp only [List.cons_append]
    rw [List.takeWhile_cons_of_pos (h a (List.mem_cons_self a l))]
    rw [ih (fun c hc => h c (List.mem_cons_of_mem a hc))]

theorem takeNum_some_decomp (minL maxL lo hi : Nat) (cs : List Char) (v : Nat)
    (r : List Char) (hmin : 1 ≤ minL) (h : takeNum minL maxL lo hi cs = some (v, r)) :
    ∃ ds, cs = ds ++ r ∧ ds ≠ [] ∧ ∀ c ∈ ds, c.isDigit = true := by
  simp only [takeNum] at h
  split at h
  case isTrue hcond =>
    cases Option.some.inj h
    refine ⟨cs.takeWhile Char.isDigit, (List.takeWhile_append_dropWhile _ _).symm, ?_,
      fun c hc => List.mem_takeWhile_imp hc⟩
    intro hnil
    rw [hnil] at hcond
    simp at hcond
    omega
  case isFalse => simp at h

theorem expectChar_some_decomp (c : Char) (cs r : List Char)
    (h : expectChar c cs = some r) : cs = c :: r := by
  cases cs with
  | nil => simp [expectChar] at h
  | cons c2 rest =>
    simp only [expectChar] at h
    split at h
    case isTrue hc =>
      cases Option.some.inj h
      rw [hc]
    case isFalse => simp at h

theorem skipWs1_some_decomp (cs r : List Char) (h : skipWs1 cs = some r) :
    ∃ ws, cs = ws ++ r ∧ ws ≠ [] ∧ ∀ c ∈ ws, c.isWhitespace = true := by
  simp only [skipWs1] at h
  split at h
  case isTrue => simp at h
  case isFalse hlen =>
    cases Option.some.inj h
    refine ⟨cs.takeWhile Char.isWhitespace, (List.takeWhile_append_dropWhile _ _).symm, ?_,
      fun c hc => List.mem_takeWhile_imp hc⟩
    intro hnil
    rw [hnil] at hlen
    simp at hlen

/-- Any character list accepted by the fixed-pattern parser decomposes
into six nonempty digit groups separated by colons and one whitespace
run. -/
theorem strptimeChars_shape (cs : List Char) (dt : DateTime)
    (h : strptimeChars cs = some dt) :
    ∃ ds1 ds2 ds3 ws ds4 ds5 ds6 : List Char,
      cs = ds1 ++ ':' :: (ds2 ++ ':' :: (ds3 ++ (ws ++ (ds4 ++ ':' :: (ds5 ++ ':' :: ds6))))) ∧
      ds1 ≠ [] ∧ ds6 ≠ [] ∧ ws ≠ [] ∧
      (∀ c ∈ ds1 ++ ds2 ++ ds3 ++ ds4 ++ ds5 ++ ds6, c.isDigit = true) ∧
      (∀ c ∈ ws, c.isWhitespace = true) := by
  simp only [strptimeChars, Option.bind_eq_bind] at h
  rw [Option.bind_eq_some] at h
  obtain ⟨⟨y, r1⟩, h1, h⟩ := h
  simp only at h
  rw [Option.bind_eq_some] at h
  obtain ⟨r2, h2, h⟩ := h
  rw [Option.bind_eq_some] at h
  obtain ⟨⟨mo, r3⟩, h3, h⟩ := h
  simp only at h
  rw [Option.bind_eq_some] at h
  obtain ⟨r4, h4, h⟩ := h
  rw [Option.bind_eq_some] at h
  obtain ⟨⟨d, r5⟩, h5, h⟩ := h
  simp only at h
  rw [Option.bind_eq_some] at h
  obtain ⟨r6, h6, h⟩ := h
  rw [Option.bind_eq_some] at h
  obtain ⟨⟨hh, r7⟩, h7, h⟩ := h
  simp only at h
  rw [Option.bind_eq_some] at h
  obtain ⟨r8, h8, h⟩ := h
  rw [Option.bind_eq_some] at h
  obtain ⟨⟨mi, r9⟩, h9, h⟩ := h
  simp only at h
  rw [Option.bind_eq_some] at h
  obtain ⟨r10, h10, h⟩ := h
  rw [Option.bind_eq_some] at h
  obtain ⟨⟨ss, r11⟩, h11, h⟩ := h
  simp only at h
  split at h
  case isFalse => simp at h
  case isTrue hfin =>
    obtain ⟨ds1, hcs, hne1, hdig1⟩ := takeNum_some_decomp 4 4 1 9999 cs y r1 (by omega) h1
    have hr1 := expectChar_some_decomp ':' r1 r2 h2
    obtain ⟨ds2, hr2, hne2, hdig2⟩ := takeNum_some_decomp 1 2 1 12 r2 mo r3 (by omega) h3
    have hr3 := expectChar_some_decomp ':' r3 r4 h4
    obtain ⟨ds3, hr4, hne3, hdig3⟩ := takeNum_some_decomp 1 2 1 31 r4 d r5 (by omega) h5
    obtain ⟨ws, hr5, hnew, hwsall⟩ := skipWs1_some_decomp r5 r6 h6
    obtain ⟨ds4, hr6, hne4, hdig4⟩ := takeNum_some_decomp 1 2 0 23 r6 hh r7 (by omega) h7
    have hr7 := expectChar_some_decomp ':' r7 r8 h8
    obtain ⟨ds5, hr8, hne5, hdig5⟩ := takeNum_some_decomp 1 2 0 59 r8 mi r9 (by omega) h9
    have hr9 := expectChar_some_decomp ':' r9 r10 h10
    obtain ⟨ds6, hr10, hne6, hdig6⟩ := takeNum_some_decomp 1 2 0 59 r10 ss r11 (by omega) h11
    have hr11 : r11 = [] := hfin.1
    subst hr11 hr10 hr9 hr8 hr7 hr6 hr5 hr4 hr3 hr2 hr1 hcs
    refine ⟨ds1, ds2, ds3, ws, ds4, ds5, ds6, by simp, hne1, hne6, hnew, ?_, hwsall⟩
    intro c hc
    simp only [List.mem_append] at hc
    rcases hc with ((((hc | hc) | hc) | hc) | hc) | hc
    · exact hdig1 c hc
    · exact hdig2 c hc
    · exact hdig3 c hc
    · exact hdig4 c hc
    · exact hdig5 c hc
    · exact hdig6 c hc

/-- Every character of an accepted string is a digit, a colon, or
whitespace. -/
theorem strptimeChars_mem (cs : List Char) (dt : DateTime)
    (h : strptimeChars cs = some dt) :
    ∀ c ∈ cs, c.isDigit = true ∨ c = ':' ∨ c.isWhitespace = true := by
  obtain ⟨ds1, ds2, ds3, ws, ds4, ds5, ds6, hcs, _, _, _, hdig, hws⟩ :=
    strptimeChars_shape cs dt h
  intro c hc
  rw [hcs] at hc
  simp only [List.mem_append, List.mem_cons] at hc
  rcases hc with hc | rfl | hc | rfl | hc | hc | hc | rfl | hc | rfl | hc
  · exact Or.inl (hdig c (by simp [hc]))
  · exact Or.inr (Or.inl rfl)
  · exact Or.inl (hdig c (by simp [hc]))
  · exact Or.inr (Or.inl rfl)
  · exact Or.inl (hdig c (by simp [hc]))
  · exact Or.inr (Or.inr (hws c hc))
  · exact Or.inl (hdig c (by simp [hc]))
  · exact Or.inr (Or.inl rfl)
  · exact Or.inl (hdig c (by simp [hc]))
  · exact Or.inr (Or.inl rfl)
  · exact Or.inl (hdig c (by simp [hc]))

/-- An accepted string starts with a digit (the four-digit year). -/
theorem strptimeChars_head (cs : List Char) (dt : DateTime)
    (h : strptimeChars cs = some dt) :
    ∃ hd tl, cs = hd :: tl ∧ hd.isDigit = true := by
  obtain ⟨ds1, ds2, ds3, ws, ds4, ds5, ds6, hcs, hne1, _, _, hdig, _⟩ :=
    strptimeChars_shape cs dt h
  cases ds1 with
  | nil => exact absurd rfl hne1
  | cons a t =>
    refine ⟨a, t ++ ':' :: (ds2 ++ ':' :: (ds3 ++ (ws ++ (ds4 ++ ':' :: (ds5 ++ ':' :: ds6))))),
      ?_, ?_⟩
    · rw [hcs]
      rfl
    · exact hdig a (by simp)

/-- An accepted string ends with a digit (the seconds field). -/
theorem strptimeChars_revhead (cs : List Char) (dt : DateTime)
    (h : strptimeChars cs = some dt) :
    ∃ hd tl, cs.reverse = hd :: tl ∧ hd.isDigit = true := by
  obtain ⟨ds1, ds2, ds3, ws, ds4, ds5, ds6, hcs, _, hne6, _, hdig, _⟩ :=
    strptimeChars_shape cs dt h
  have hsplit : cs =
      (ds1 ++ ':' :: (ds2 ++ ':' :: (ds3 ++ (ws ++ (ds4 ++ ':' :: (ds5 ++ [':'])))))) ++ ds6 := by
    rw [hcs]
    simp
  cases hrev : ds6.reverse with
  | nil =>
    exact absurd (by simpa using congrArg List.reverse hrev) hne6
  | cons a t =>
    refine ⟨a, t ++ (ds1 ++ ':' :: (ds2 ++ ':' :: (ds3 ++ (ws ++ (ds4 ++ ':' ::
      (ds5 ++ [':'])))))).reverse, ?_, ?_⟩
    · rw [hsplit, List.reverse_append, hrev, List.cons_append]
    · have ha : a ∈ ds6 := by
        have : a ∈ ds6.reverse := by
          rw [hrev]
          exact List.mem_cons_self a t
        simpa using this
      exact hdig a (by simp [ha])

/-- A digit, colon or whitespace character is neither a plus nor a
minus sign. -/
theorem not_plus_minus (c : Char)
    (hc : c.isDigit = true ∨ c = ':' ∨ c.isWhitespace = true) :
    c ≠ '+' ∧ c ≠ '-' := by
  refine ⟨?_, ?_⟩ <;> intro heq <;> subst heq <;>
    rcases hc with h | h | h <;> revert h <;> decide

/-- A decimal digit is not whitespace. -/
theorem isDigit_not_ws (c : Char) (h : c.isDigit = true) : c.isWhitespace = false := by
  by_cases hw : c.isWhitespace = true
  · exfalso
    have hc : ((c = ' ' ∨ c = '\t') ∨ c = '\r') ∨ c = '\n' := by
      simpa [Char.isWhitespace] using hw
    rcases hc with ((rfl | rfl) | rfl) | rfl <;> revert h <;> decide
  · exact Bool.eq_false_iff.mpr hw

/-- `str.strip()` is the identity on a string with non-whitespace
characters at both ends. -/
theorem pyStrip_id (s : String)
    (h1 : ∃ hd tl, s.data = hd :: tl ∧ hd.isWhitespace = false)
    (h2 : ∃ hd tl, s.data.reverse = hd :: tl ∧ hd.isWhitespace = false) :
    pyStrip s = s := by
  obtain ⟨hd, tl, hcons, hws⟩ := h1
  obtain ⟨hd2, tl2, hcons2, hws2⟩ := h2
  unfold pyStrip
  rw [hcons, List.dropWhile_cons_of_neg (by simp [hws]), ← hcons, hcons2,
    List.dropWhile_cons_of_neg (by simp [hws2]), ← hcons2, List.reverse_reverse]

/-- The timezone strip of the source leaves a parseable date-time
prefix intact, for any timezone suffix that is empty or begins with a
sign character: every character of the prefix is a digit, colon or
whitespace, so the first `+` or `-` of the combined value lies in the
suffix. -/
theorem stripTZ_of_strptime (dtstr tz : String) (d : DateTime)
    (hparse : strptimeFixed dtstr = some d)
    (htz : tz.data = [] ∨ (∃ r, tz.data = '+' :: r) ∨ (∃ r, tz.data = '-' :: r)) :
    stripTZ (dtstr ++ tz) = dtstr := by
  have hmem := strptimeChars_mem dtstr.data d hparse
  have hplus : ∀ c ∈ dtstr.data, (c != '+') = true := by
    intro c hc
    simpa using (not_plus_minus c (hmem c hc)).1
  have hminus : ∀ c ∈ dtstr.data, (c != '-') = true := by
    intro c hc
    simpa using (not_plus_minus c (hmem c hc)).2
  have hstrip : pyStrip dtstr = dtstr := by
    apply pyStrip_id
    · obtain ⟨hd, tl, hcons, hdig⟩ := strptimeChars_head dtstr.data d hparse
      exact ⟨hd, tl, hcons, isDigit_not_ws hd hdig⟩
    · obtain ⟨hd, tl, hcons, hdig⟩ := strptimeChars_revhead dtstr.data d hparse
      exact ⟨hd, tl, hcons, isDigit_not_ws hd hdig⟩
  have hT : takeBefore '-' (takeBefore '+' (dtstr ++ tz)) = dtstr := by
    have hdata : takeBefore '-' (takeBefore '+' (dtstr ++ tz)) =
        String.mk (((dtstr.data ++ tz.data).takeWhile fun x => x != '+').takeWhile
          fun x => x != '-') := rfl
    rw [hdata]
    rcases htz with h0 | ⟨r, hr⟩ | ⟨r, hr⟩
    · rw [h0, List.append_nil, takeWhile_all dtstr.data hplus,
        takeWhile_all dtstr.data hminus]
    · rw [hr, takeWhile_append_all dtstr.data _ hplus,
        List.takeWhile_cons_of_neg (p := fun x => x != '+') (by simp),
        List.append_nil, takeWhile_all dtstr.data hminus]
    · rw [hr, takeWhile_append_all dtstr.data _ hplus,
        List.takeWhile_cons_of_pos (p := fun x => x != '+') (by decide),
        takeWhile_append_all dtstr.data _ hminus,
        List.takeWhile_cons_of_neg (p := fun x => x != '-') (by simp),
        List.append_nil]
  unfold stripTZ
  rw [hT]
  exact hstrip

/-- When the first present truthy key value parses after stripping,
the key-scanning loop returns exactly that parse. -/
theorem exiftoolRawLoop_parse (info : String → Option String) :
    ∀ (ks : List String) (v : String) (d : DateTime),
    exiftoolRawLoop info ks = some v →
    strptimeFixed (stripTZ v) = some d →
    exiftoolLoop info ks = some d := by
  intro ks
  induction ks with
  | nil =>
    intro v d h _
    simp [exiftoolRawLoop] at h
  | cons k rest ih =>
    intro v d hraw hparse
    simp only [exiftoolRawLoop] at hraw
    simp only [exiftoolLoop]
    cases hk : info k with
    | none =>
      rw [hk] at hraw
      exact ih v d hraw hparse
    | some val =>
      rw [hk] at hraw
      simp only [hk]
      by_cases hval : val = ""
      · simp only [if_pos hval] at hraw ⊢
        exact ih v d hraw hparse
      · simp only [if_neg hval] at hraw ⊢
        cases Option.some.inj hraw
        simp only [hparse]

/-- Claim C4: when the primary reader yields nothing and the secondary
reader's record holds, for the first of `DateTimeOriginal`,
`CreateDate`, `DateTime` present and truthy, a value consisting of a
fixed-pattern date-time followed by an optional sign-led timezone
suffix, the resolver strips exactly that suffix — leaving the date-time
portion intact — and returns its parse. -/
theorem c4_secondary_tz_strip (tags info : String → Option String)
    (mtime : Option DateTime) (use_filetime : Bool) (dtstr tz : String) (d : DateTime)
    (hprim : parse_exif_date_exifread tags = none)
    (hparse : strptimeFixed dtstr = some d)
    (htz : tz.data = [] ∨ (∃ r, tz.data = '+' :: r) ∨ (∃ r, tz.data = '-' :: r))
    (hraw : exiftoolFirstRaw info = some (dtstr ++ tz)) :
    stripTZ (dtstr ++ tz) = dtstr ∧
    get_image_datetime tags info mtime use_filetime = some d := by
  have hT := stripTZ_of_strptime dtstr tz d hparse htz
  have hparse2 : strptimeFixed (stripTZ (dtstr ++ tz)) = some d := by
    rw [hT]
    exact hparse
  have htool : parse_exif_date_exiftool info = some d :=
    exiftoolRawLoop_parse info exiftoolKeys (dtstr ++ tz) d hraw hparse2
  exact ⟨hT, by simp [get_image_datetime, hprim, htool]⟩

/-- A secondary-reader record with a negative-offset timestamp. -/
def infoC4 : String → Option String :=
  fun k => if k == "DateTimeOriginal" then some "2023:05:01 10:20:30-05:00" else none

/-- Witness for C4: with an empty primary tag table and an `exiftool`
value carrying a `-05:00` offset, the resolver strips the offset and
returns the parsed date-time. -/
theorem c4_secondary_tz_strip_witness :
    stripTZ ("2023:05:01 10:20:30" ++ "-05:00") = "2023:05:01 10:20:30" ∧
    get_image_datetime (fun _ => none) infoC4 none false = some ⟨2023, 5, 1, 10, 20, 30⟩ :=
  c4_secondary_tz_strip (fun _ => none) infoC4 none false "2023:05:01 10:20:30" "-05:00"
    ⟨2023, 5, 1, 10, 20, 30⟩ rfl rfl (Or.inr (Or.inr ⟨"05:00".data, rfl⟩)) rfl

/-! ### Path-manipulation lemmas for the directory invariant (C7) -/

theorem dropWhile_append_all {p : Char → Bool} (l m : List Char)
    (h : ∀ c ∈ l, p c = true) : (l ++ m).dropWhile p = m.dropWhile p := by
  induction l with
  | nil => simp
  | cons a l ih =>
    simp only [List.cons_append]
    rw [List.dropWhile_cons_of_pos (h a (List.mem_cons_self a l))]
    exact ih (fun c hc => h c (List.mem_cons_of_mem a hc))

theorem dropWhile_head_not {p : Char → Bool} :
    ∀ (l : List Char) (a : Char) (t : List Char), l.dropWhile p = a :: t → p a = false := by
  intro l
  induction l with
  | nil =>
    intro a t h
    simp [List.dropWhile] at h
  | cons x xs ih =>
    intro a t h
    by_cases hp : p x = true
    · rw [List.dropWhile_cons_of_pos hp] at h
      exact ih a t h
    · rw [List.dropWhile_cons_of_neg (by simpa using hp)] at h
      cases h
      exact Bool.eq_false_iff.mpr hp

theorem digitChar_isDigit (m : Nat) (h : m < 10) : (Nat.digitChar m).isDigit = true := by
  interval_cases m <;> decide

theorem toDigitsCore_digits (fuel : Nat) :
    ∀ (n : Nat) (ds : List Char), (∀ c ∈ ds, c.isDigit = true) →
    ∀ c ∈ Nat.toDigitsCore 10 fuel n ds, c.isDigit = true := by
  induction fuel with
  | zero =>
    intro n ds hds c hc
    simp only [Nat.toDigitsCore] at hc
    exact hds c hc
  | succ fuel ih =>
    intro n ds hds c hc
    simp only [Nat.toDigitsCore] at hc
    have hcons : ∀ c2 ∈ Nat.digitChar (n % 10) :: ds, c2.isDigit = true := by
      intro c2 hc2
      rcases List.mem_cons.mp hc2 with rfl | h2
      · exact digitChar_isDigit _ (Nat.mod_lt _ (by omega))
      · exact hds c2 h2
    split at hc
    · exact hcons c hc
    · exact ih _ _ hcons c hc

/-- Every character of `str(n)` is a decimal digit. -/
theorem repr_digits (n : Nat) : ∀ c ∈ (Nat.repr n).data, c.isDigit = true := by
  intro c hc
  exact toDigitsCore_digits (n + 1) n [] (by simp) c hc

/-- The extension component of `splitext` contains no separator: it is
drawn from the characters after the last dot, which itself lies after
the last separator. -/
theorem splitext_snd_no_slash (cs : List Char) :
    ∀ c ∈ (splitextChars cs).2, c ≠ '/' := by
  intro c hc
  simp only [splitextChars] at hc
  split at hc
  case h_1 root heq =>
    split at hc
    · rcases List.mem_cons.mp hc with rfl | hmem
      · decide
      · have hmem2 : c ∈ cs.reverse.takeWhile (fun c => !(c == '.') && !(c == '/')) := by
          simpa using hmem
        have := List.mem_takeWhile_imp hmem2
        simp only [Bool.and_eq_true, Bool.not_eq_true'] at this
        simpa using this.2

    · simp at hc
  case h_2 => simp at hc

/-- The possible shapes of a `dirname` result: empty, all separators,
or ending in a non-separator. -/
theorem dirnameChars_cases (cs : List Char) :
    dirnameChars cs = [] ∨
    (dirnameChars cs ≠ [] ∧ ∀ c ∈ dirnameChars cs, c = '/') ∨
    (∃ l x, dirnameChars cs = l ++ [x] ∧ x ≠ '/') := by
  simp only [dirnameChars]
  by_cases h : (cs.reverse.dropWhile fun c => !(c == '/')).dropWhile (fun c => c == '/') = []
  · rw [if_pos h]
    by_cases hhrnil : cs.reverse.dropWhile (fun c => !(c == '/')) = []
    · left
      simp [hhrnil]
    · right
      left
      constructor
      · simpa using hhrnil
      · intro c hc
        have hmem : c ∈ cs.reverse.dropWhile (fun c => !(c == '/')) := by simpa using hc
        have hall := List.dropWhile_eq_nil_iff.mp h
        simpa using hall c hmem
  · rw [if_neg h]
    right
    right
    cases hcore : (cs.reverse.dropWhile fun c => !(c == '/')).dropWhile (fun c => c == '/') with
    | nil => exact absurd hcore h
    | cons a t =>
      refine ⟨t.reverse, a, by simp, ?_⟩
      have := dropWhile_head_not _ a t hcore
      simpa using this

/-- A separator-free list has an empty `dirname`. -/
theorem dirnameChars_no_slash_nil (cs : List Char) (h : ∀ c ∈ cs, c ≠ '/') :
    dirnameChars cs = [] := by
  have h1 : cs.reverse.dropWhile (fun c => !(c == '/')) = [] := by
    rw [List.dropWhile_eq_nil_iff]
    intro x hx
    simp [h x (by simpa using hx)]
  simp [dirnameChars, h1]

/-- Joining a separator-free nonempty name onto a `dirname`-shaped
head and taking `dirname` again recovers the head. -/
theorem dirnameChars_join (d name : List Char)
    (hcase : d = [] ∨ (d ≠ [] ∧ ∀ c ∈ d, c = '/') ∨ (∃ l x, d = l ++ [x] ∧ x ≠ '/'))
    (hname : name ≠ []) (hns : ∀ c ∈ name, c ≠ '/') :
    dirnameChars (joinChars d name) = d := by
  have hhead : ¬ (name.head? = some '/') := by
    cases name with
    | nil => simp
    | cons a t => simp [hns a (List.mem_cons_self a t)]
  have hnameall : ∀ c ∈ name.reverse, (!(c == '/')) = true := by
    intro c hc
    simp [hns c (List.mem_reverse.mp hc)]
  rcases hcase with rfl | ⟨hne, hall⟩ | ⟨l, x, rfl, hx⟩
  · simp only [joinChars, if_neg hhead, if_pos rfl]
    exact dirnameChars_no_slash_nil name hns
  · obtain ⟨a, t, hda⟩ : ∃ a t, d.reverse = a :: t := by
      cases hdr : d.reverse with
      | nil => exact absurd (by simpa using congrArg List.reverse hdr) hne
      | cons a t => exact ⟨a, t, rfl⟩
    have ha : a = '/' := hall a (List.mem_reverse.mp (hda ▸ List.mem_cons_self a t))
    have hlast : d.getLast? = some '/' := by
      rw [List.getLast?_eq_head?_reverse, hda, ha]
      rfl
    simp only [joinChars, if_neg hhead, if_neg hne, if_pos hlast]
    simp only [dirnameChars, List.reverse_append]
    rw [dropWhile_append_all _ _ hnameall, hda,
      List.dropWhile_cons_of_neg (by simp [ha])]
    have hcore : (a :: t).dropWhile (fun c => c == '/') = [] := by
      rw [List.dropWhile_eq_nil_iff]
      intro y hy
      have hyd : y ∈ d := List.mem_reverse.mp (hda ▸ hy)
      simp [hall y hyd]
    rw [hcore, if_pos rfl, ← hda, List.reverse_reverse]
  · have hdne : ¬ (l ++ [x] = []) := by simp
    have hlast : (l ++ [x]).getLast? = some x := List.getLast?_concat l
    have hlastne : ¬ ((l ++ [x]).getLast? = some '/') := by
      rw [hlast]
      intro heq
      exact hx (Option.some.inj heq)
    simp only [joinChars, if_neg hhead, if_neg hdne, if_neg hlastne]
    simp only [dirnameChars]
    rw [show (l ++ [x] ++ '/' :: name).reverse = name.reverse ++ '/' :: (l ++ [x]).reverse from
      by simp]
    rw [dropWhile_append_all _ _ hnameall,
      List.dropWhile_cons_of_neg (by simp),
      List.dropWhile_cons_of_pos (by simp)]
    have hrev : (l ++ [x]).reverse = x :: l.reverse := by simp
    rw [hrev, List.dropWhile_cons_of_neg (by simp [hx]), if_neg (by simp), ← hrev,
      List.reverse_reverse]

/-- String-level version: renaming inside `dirname src` with a
separator-free name does not change the directory. -/
theorem pyDirname_pyJoin (s name : String) (hname : name.data ≠ [])
    (hns : ∀ c ∈ name.data, c ≠ '/') :
    pyDirname (pyJoin (pyDirname s) name) = pyDirname s := by
  have hrfl : pyDirname (pyJoin (pyDirname s) name) =
      String.mk (dirnameChars (joinChars (dirnameChars s.data) name.data)) := rfl
  rw [hrfl, dirnameChars_join (dirnameChars s.data) name.data (dirnameChars_cases s.data)
    hname hns]
  rfl

/-- The stripped extension computed by the planner contains no
separator. -/
theorem lstripDot_splitext_no_slash (s : String) :
    ∀ c ∈ (lstripDot (pySplitext s).2).data, c ≠ '/' := by
  intro c hc
  have hdw : (lstripDot (pySplitext s).2).data =
      (splitextChars s.data).2.dropWhile (fun c => c == '.') := rfl
  rw [hdw] at hc
  exact splitext_snd_no_slash s.data c ((List.dropWhile_sublist _).subset hc)

/-- Every candidate path probed by the namer below `dirname src` keeps
the directory, provided base name and extension are separator-free. -/
theorem pyDirname_targetName (src base ext : String) (k : Nat)
    (hb : ∀ c ∈ base.data, c ≠ '/') (he : ∀ c ∈ ext.data, c ≠ '/') :
    pyDirname (targetName (pyDirname src) base ext k) = pyDirname src := by
  unfold targetName
  split
  · apply pyDirname_pyJoin
    · simp
    · intro c hc
      simp only [String.data_append] at hc
      rcases List.mem_append.mp hc with hc2 | hc2
      · rcases List.mem_append.mp hc2 with hc3 | hc3
        · exact hb c hc3
        · rcases List.mem_singleton.mp (by simpa using hc3) with rfl
          decide
      · exact he c hc2
  · apply pyDirname_pyJoin
    · simp
    · intro c hc
      simp only [String.data_append] at hc
      rcases List.mem_append.mp hc with hc2 | hc2
      · rcases List.mem_append.mp hc2 with hc3 | hc3
        · rcases List.mem_append.mp hc3 with hc4 | hc4
          · rcases List.mem_append.mp hc4 with hc5 | hc5
            · exact hb c hc5
            · rcases List.mem_singleton.mp (by simpa using hc5) with rfl
              decide
          · intro heq
            have := repr_digits k c hc4
            rw [heq] at this
            exact absurd this (by decide)
        · rcases List.mem_singleton.mp (by simpa using hc3) with rfl
          decide
      · exact he c hc2

/-- Full inversion of a planning step that produced an entry. -/
theorem processFile_entry_full_inv (fs : String → Bool) (abspath : String → String)
    (fmt : DateTime → String) (resolve : String → Except String (Option DateTime))
    (fuel : Nat) (src : String) (e : String × String)
    (h : processFile fs abspath fmt resolve fuel src = some (PlanAction.entry e)) :
    ∃ dt, resolve src = Except.ok (some dt) ∧
      unique_target_path fs (pyDirname src) (fmt dt) (lstripDot (pySplitext src).2) fuel =
        some e.2 ∧
      abspath src ≠ abspath e.2 ∧ e.1 = src := by
  unfold processFile at h
  cases hres : resolve src with
  | error er => simp [hres] at h
  | ok odt =>
    cases odt with
    | none => simp [hres] at h
    | some dt =>
      simp only [hres] at h
      cases hu : unique_target_path fs (pyDirname src) (fmt dt)
          (lstripDot (pySplitext src).2) fuel with
      | none => simp [hu] at h
      | some target =>
        simp only [hu] at h
        by_cases habs : abspath src = abspath target
        · simp [habs] at h
        · simp only [habs, if_false] at h
          have he := Option.some.inj h
          cases he
          exact ⟨dt, rfl, hu, habs, rfl⟩

theorem uniqueLoop_inv (fs : String → Bool) (d b e : String) :
    ∀ (fuel counter : Nat) (t : String), uniqueLoop fs d b e fuel counter = some t →
    1 ≤ counter → fs t = false ∧ ∃ k, t = targetName d b e k := by
  intro fuel
  induction fuel with
  | zero =>
    intro counter t h _
    simp [uniqueLoop] at h
  | succ fuel ih =>
    intro counter t h hc
    simp only [uniqueLoop] at h
    split at h
    · exact ih (counter + 1) t h (by omega)
    case isFalse hfs =>
      cases Option.some.inj h
      refine ⟨by simpa using hfs, counter, ?_⟩
      simp [targetName, show counter ≠ 0 from by omega]

theorem unique_target_path_inv (fs : String → Bool) (d b e : String) (fuel : Nat)
    (t : String) (h : unique_target_path fs d b e fuel = some t) :
    fs t = false ∧ ∃ k, t = targetName d b e k := by
  simp only [unique_target_path] at h
  split at h
  · exact uniqueLoop_inv fs d b e fuel 1 t h (Nat.le_refl 1)
  case isFalse hfs =>
    cases Option.some.inj h
    exact ⟨by simpa using hfs, 0, by simp [targetName]⟩

/-- A format whose output contains a path separator (e.g. the valid
`strftime` pattern `%Y/%m`). -/
def fmtSlash : DateTime → String := fun _ => "2023/05"

/-- Claim C7, refuted at a concrete run: with the user-supplied format
producing `2023/05`, the planner emits the entry
`d/a.jpg -> d/2023/05.jpg`, whose target directory `d/2023` differs
from the source directory `d` — the rename relocates the file across
directories (and execution would even create the new directory via
`os.makedirs`). -/
theorem c7_dir_invariant_counterexample :
    buildPlan (fun _ => false) id fmtSlash resolveAll 5 ["d/a.jpg"] =
      some ([("d/a.jpg", "d/2023/05.jpg")], []) ∧
    pyDirname "d/2023/05.jpg" ≠ pyDirname "d/a.jpg" :=
  ⟨rfl, by decide⟩

/-- Claim C7 as amended: provided the filename format emits no path
separator for any timestamp (true of the default format), every plan
entry's target has the same directory as its source, does not exist on
the (plan-time) filesystem, and differs from the source under
`os.path.abspath` — an entry equal to its source is dropped rather than
planned. -/
theorem c7_dir_invariant_amended (fs : String → Bool) (abspath : String → String)
    (fmt : DateTime → String) (resolve : String → Except String (Option DateTime))
    (fuel : Nat) (cs : List String) (m f : List (String × String))
    (hfmt : ∀ (dt : DateTime), ∀ c ∈ (fmt dt).data, c ≠ '/')
    (h : buildPlan fs abspath fmt resolve fuel cs = some (m, f)) :
    ∀ pr ∈ m, pyDirname pr.2 = pyDirname pr.1 ∧ fs pr.2 = false ∧
      abspath pr.1 ≠ abspath pr.2 := by
  intro pr hpr
  have hent := buildPlan_entry_inv fs abspath fmt resolve fuel cs m f h pr hpr
  obtain ⟨dt, hres, hu, hne, hfst⟩ :=
    processFile_entry_full_inv fs abspath fmt resolve fuel pr.1 pr hent
  obtain ⟨hfree, k, ht⟩ := unique_target_path_inv fs _ _ _ fuel pr.2 hu
  refine ⟨?_, hfree, hne⟩
  rw [ht]
  exact pyDirname_targetName pr.1 (fmt dt) (lstripDot (pySplitext pr.1).2) k
    (hfmt dt) (lstripDot_splitext_no_slash pr.1)

/-- The default format emits only digits and the separators `-` and
`_`, never a path separator. -/
theorem defaultFormat_no_slash : ∀ (dt : DateTime), ∀ c ∈ (defaultFormat dt).data, c ≠ '/' := by
  have hpad2 : ∀ (n : Nat), ∀ c ∈ (pad2 n).data, c ≠ '/' := by
    intro n c hc heq
    subst heq
    unfold pad2 at hc
    split at hc
    · simp only [String.data_append] at hc
      rcases List.mem_append.mp hc with hc2 | hc2
      · revert hc2
        decide
      · exact absurd (repr_digits n _ hc2) (by decide)
    · exact absurd (repr_digits n _ hc) (by decide)
  have hpad4 : ∀ (n : Nat), ∀ c ∈ (pad4 n).data, c ≠ '/' := by
    intro n c hc heq
    subst heq
    unfold pad4 at hc
    split at hc
    · simp only [String.data_append] at hc
      rcases List.mem_append.mp hc with hc2 | hc2
      · revert hc2
        decide
      · exact absurd (repr_digits n _ hc2) (by decide)
    · split at hc
      · simp only [String.data_append] at hc
        rcases List.mem_append.mp hc with hc2 | hc2
        · revert hc2
          decide
        · exact absurd (repr_digits n _ hc2) (by decide)
      · split at hc
        · simp only [String.data_append] at hc
          rcases List.mem_append.mp hc with hc2 | hc2
          · revert hc2
            decide
          · exact absurd (repr_digits n _ hc2) (by decide)
        · exact absurd (repr_digits n _ hc) (by decide)
  intro dt c hc heq
  subst heq
  unfold defaultFormat at hc
  simp only [String.data_append] at hc
  rcases List.mem_append.mp hc with hc1 | hc1
  · rcases List.mem_append.mp hc1 with hc2 | hc2
    · rcases List.mem_append.mp hc2 with hc3 | hc3
      · rcases List.mem_append.mp hc3 with hc4 | hc4
        · rcases List.mem_append.mp hc4 with hc5 | hc5
          · rcases List.mem_append.mp hc5 with hc6 | hc6
            · rcases List.mem_append.mp hc6 with hc7 | hc7
              · rcases List.mem_append.mp hc7 with hc8 | hc8
                · rcases List.mem_append.mp hc8 with hc9 | hc9
                  · rcases List.mem_append.mp hc9 with hc10 | hc10
                    · exact hpad4 dt.year _ hc10 rfl
                    · revert hc10
                      decide
                  · exact hpad2 dt.month _ hc9 rfl
                · revert hc8
                  decide
              · exact hpad2 dt.day _ hc7 rfl
            · revert hc6
              decide
          · exact hpad2 dt.hour _ hc5 rfl
        · revert hc4
          decide
      · exact hpad2 dt.minute _ hc3 rfl
    · revert hc2
      decide
  · exact hpad2 dt.second _ hc1 rfl

/-- Witness for C7 as amended, on a concrete single-entry run under
the default format: the entry keeps the directory, targets a free path,
and differs from its source. -/
theorem c7_dir_invariant_amended_witness :
    pyDirname "d/2023-05-01_10-20-30.jpg" = pyDirname "d/a.jpg" ∧
    (fun _ : String => false) "d/2023-05-01_10-20-30.jpg" = false ∧
    id "d/a.jpg" ≠ id "d/2023-05-01_10-20-30.jpg" := by
  have h := c7_dir_invariant_amended (fun _ => false) id defaultFormat resolveAll 5
    ["d/a.jpg"] [("d/a.jpg", "d/2023-05-01_10-20-30.jpg")] []
    defaultFormat_no_slash rfl ("d/a.jpg", "d/2023-05-01_10-20-30.jpg") (by simp)
  exact h

end RenamePhotos
